import Mathlib

set_option maxHeartbeats 1000000
set_option maxRecDepth 4000

/-!
Shallow embedding of the Merlin backend's workflow-orchestration core:
`backend/src/merlin/services/optillm_service.py` (response sanitizer,
technique pipeline, rate limiter) and
`backend/src/merlin/services/workflow_service.py` together with
`backend/src/merlin/repositories/workflow_repo.py` (workflow state machine).

Modelling conventions:
* Python `str` is modelled as `List Char` inside the sanitizer core (where
  character-level scanning mirrors the regular expressions used by the
  source) and as `String` elsewhere.
* Timestamps, `execution_time_ms`, `token_count` and logging are omitted:
  no claim refers to them.  `asyncio.sleep` calls are recorded in explicit
  sleep logs instead of really sleeping; the rate limiter tracks an abstract
  rational clock.
* External calls (technique functions, provider clients, external services)
  are oracles passed in as functions, mirroring the uniform calling contract
  the service imposes on them.
* The database session/repository pair is collapsed to an `Option WorkflowSt`
  holding the single workflow a claim talks about; `get_by_id` returning
  `None` is the `none` case.
-/

namespace Merlin

/-! ### Python string primitives -/

/-- The backtick character (written via its code point so that the Lean
source never contains a bare backtick outside comments and strings). -/
def btick : Char := Char.ofNat 96

/-- Opening curly brace character. -/
def obrace : Char := Char.ofNat 123

/-- Closing curly brace character. -/
def cbrace : Char := Char.ofNat 125

/-- Python whitespace, as used by `str.strip()` and the regex class `\s`:
space, tab, newline, carriage return, vertical tab, form feed. -/
def isPySpace (c : Char) : Bool :=
  c = ' ' || c = '\t' || c = '\n' || c = '\r' || c = Char.ofNat 11 || c = Char.ofNat 12

/-- Python `str.strip()`. -/
def pyStrip (s : List Char) : List Char :=
  ((s.dropWhile isPySpace).reverse.dropWhile isPySpace).reverse

/-- Drop leading Python whitespace (the regex `\s*`). -/
def skipWs (s : List Char) : List Char := s.dropWhile isPySpace

/-- Does the text start with a fenced-code marker (three backticks)? -/
def startsWithFence (s : List Char) : Bool :=
  match s with
  | a :: b :: c :: _ => a = btick && b = btick && c = btick
  | _ => false

/-- Python `"\x60\x60\x60" in response`: does the text contain a fence
marker anywhere? -/
def hasFence (s : List Char) : Bool :=
  match s with
  | [] => false
  | _ :: rest => startsWithFence s || hasFence rest

/-- Worker for `splitFence`, carrying the reversed current piece. -/
def splitFenceAux : List Char → List Char → List (List Char)
  | a :: b :: c :: rest, acc =>
    if a = btick ∧ b = btick ∧ c = btick then acc.reverse :: splitFenceAux rest []
    else splitFenceAux (b :: c :: rest) (a :: acc)
  | a :: rest, acc => splitFenceAux rest (a :: acc)
  | [], acc => [acc.reverse]

/-- Python `response.split("\x60\x60\x60")`: split on non-overlapping fence
markers, leftmost first, keeping empty pieces. -/
def splitFence (s : List Char) : List (List Char) := splitFenceAux s []

/-- After an opening fence, the regex tail `[^\x60]*\x60\x60\x60`: skip
non-backtick characters and require a closing fence, returning the rest. -/
def fenceClose (s : List Char) : Option (List Char) :=
  if startsWithFence s then some (s.drop 3)
  else
    match s with
    | c :: rest => if c = btick then none else fenceClose rest
    | [] => none

/-- Fuelled worker for `fenceSub` (the fuel is the length of the original
text, which bounds the number of scanning steps). -/
def fenceSubAux : Nat → List Char → List Char
  | 0, s => s
  | _ + 1, [] => []
  | fuel + 1, c :: rest =>
    if startsWithFence (c :: rest) then
      match fenceClose (rest.drop 2) with
      | some rest2 => fenceSubAux fuel rest2
      | none => c :: fenceSubAux fuel rest
    else c :: fenceSubAux fuel rest

/-- Python `re.sub(r"\x60\x60\x60[^\x60]*\x60\x60\x60", "", response)`:
delete every non-overlapping fenced block. -/
def fenceSub (s : List Char) : List Char := fenceSubAux s.length s

/-- Case-insensitive literal match at the current position (the pattern is
given in lowercase); returns the rest of the input on success.  This is how
every alternation of fixed words behaves under `re.IGNORECASE`. -/
def matchLitCI (pat : List Char) (s : List Char) : Option (List Char) :=
  match pat, s with
  | [], rest => some rest
  | p :: ps, c :: cs => if c.toLower = p.toLower then matchLitCI ps cs else none
  | _ :: _, [] => none

/-- Is the character one of the regex class `["']`? -/
def isQuote (c : Char) : Bool := c = '"' || c = '\''

/-- The regex tail `["']([^"']+)["']` at the current position: an opening
quote, a non-empty run of non-quote characters (the capture), and a closing
quote (either kind, as in the source's character class). -/
def matchQuoted (s : List Char) : Option (List Char) :=
  match s with
  | q :: rest =>
    if isQuote q then
      let cap := rest.takeWhile (fun c => !(isQuote c))
      let rest2 := rest.dropWhile (fun c => !(isQuote c))
      if cap.isEmpty then none
      else
        match rest2 with
        | q2 :: _ => if isQuote q2 then some cap else none
        | [] => none
    else none
  | [] => none

/-- Unanchored `re.search`: try the position matcher at every suffix,
leftmost position first. -/
def searchPat {α : Type} (f : List Char → Option α) : List Char → Option α
  | [] => f []
  | c :: rest =>
    match f (c :: rest) with
    | some a => some a
    | none => searchPat f rest

/-- Positions admitted by a `re.MULTILINE`-anchored `^` other than the start:
immediately after each newline, leftmost first. -/
def afterNewlines {α : Type} (f : List Char → Option α) : List Char → Option α
  | [] => none
  | c :: rest =>
    if c = '\n' then
      match f rest with
      | some a => some a
      | none => afterNewlines f rest
    else afterNewlines f rest

/-- `re.search` with `re.MULTILINE` of a `^`-anchored pattern: the start of
the string, then after each newline. -/
def searchLineAnchored {α : Type} (f : List Char → Option α) (s : List Char) : Option α :=
  match f s with
  | some a => some a
  | none => afterNewlines f s

/-- The regex tail `\s*=\s*["']([^"']+)["']` after a matched variable
name. -/
def matchAssignTail (s : List Char) : Option (List Char) :=
  match skipWs s with
  | '=' :: rest => matchQuoted (skipWs rest)
  | _ => none

/-- One alternation step of `(?:name1|name2|...)\s*=\s*["']([^"']+)["']` at a
fixed position.  The name alternatives of both source regexes are pairwise
non-matching at a single position, so trying them in order is exact. -/
def tryNamesAssign (names : List (List Char)) (s : List Char) : Option (List Char) :=
  names.findSome? (fun nm => (matchLitCI nm s).bind matchAssignTail)

/-- Case-insensitive substring test (Python `pat in s.lower()` with a
lowercase pattern). -/
def containsSeqCI (pat s : List Char) : Bool :=
  (searchPat (fun t => (matchLitCI pat t).map (fun _ => ())) s).isSome

/-- Case-sensitive literal match at the current position. -/
def matchLitCS (pat : List Char) (s : List Char) : Option (List Char) :=
  match pat, s with
  | [], rest => some rest
  | p :: ps, c :: cs => if c = p then matchLitCS ps cs else none
  | _ :: _, [] => none

/-- Case-sensitive substring test (Python `pat in s`). -/
def containsSeqCS (pat s : List Char) : Bool :=
  (searchPat (fun t => (matchLitCS pat t).map (fun _ => ())) s).isSome

/-! ### `OptiLLMService._extract_answer_from_code` -/

/-- `re.sub(r"^(python|py)\s*\n", "", code_block, flags=re.IGNORECASE)` with
one fixed name: the name, then greedy `\s*` backtracking to end at the last
newline of the leading whitespace run. -/
def stripLangWith (nm : List Char) (s : List Char) : Option (List Char) :=
  (matchLitCI nm s).bind fun rest =>
    let run := rest.takeWhile isPySpace
    if run.contains '\n' then
      some ((run.reverse.takeWhile (fun c => c ≠ '\n')).reverse ++ rest.dropWhile isPySpace)
    else none

/-- Remove a `python`/`py` language identifier line from the start of a code
block (anchored at position 0, alternatives in source order). -/
def stripLangHeader (s : List Char) : List Char :=
  match stripLangWith "python".data s with
  | some r => r
  | none =>
    match stripLangWith "py".data s with
    | some r => r
    | none => s

/-- Pattern 1 position matcher: `return\s+["']([^"']+)["']`. -/
def matchReturnAt (s : List Char) : Option (List Char) :=
  (matchLitCI "return".data s).bind fun rest =>
    if (rest.takeWhile isPySpace).isEmpty then none
    else matchQuoted (rest.dropWhile isPySpace)

/-- Pattern 1: search for a `return` statement with a string literal. -/
def searchReturnStr (s : List Char) : Option (List Char) := searchPat matchReturnAt s

/-- Print pattern a position matcher: `print\(["']([^"']+)["']`. -/
def matchPrintAAt (s : List Char) : Option (List Char) :=
  (matchLitCI "print(".data s).bind matchQuoted

/-- Print pattern b position matcher:
`print\(f["'][^"']*\{([^\x7d]+)\}[^"']*["']`.  Backtracking of the greedy
`[^"']*` makes the engine try brace positions inside the quote-free run from
the rightmost one. -/
def matchPrintBAt (s : List Char) : Option (List Char) :=
  (matchLitCI "print(f".data s).bind fun rest =>
    match rest with
    | q :: rest2 =>
      if isQuote q then
        let run := rest2.takeWhile (fun c => !(isQuote c))
        (List.range run.length).reverse.findSome? fun i =>
          if run.getD i ' ' = obrace then
            let afterBrace := rest2.drop (i + 1)
            let cap := afterBrace.takeWhile (fun c => c ≠ cbrace)
            if cap.isEmpty then none
            else
              match afterBrace.dropWhile (fun c => c ≠ cbrace) with
              | c2 :: r4 =>
                if c2 = cbrace then
                  if (r4.dropWhile (fun c => !(isQuote c))).isEmpty then none else some cap
                else none
              | [] => none
          else none
      else none
    | [] => none

/-- ASCII letter test: `[A-Z]` under `re.IGNORECASE`. -/
def isAsciiLetter (c : Char) : Bool := ('A' ≤ c && c ≤ 'Z') || ('a' ≤ c && c ≤ 'z')

/-- Print pattern c position matcher: `print\([^)]*["']([A-Z]+)["']` under
`re.IGNORECASE`.  Backtracking of the greedy `[^)]*` tries opening-quote
positions inside the parenthesis-free run from the rightmost one. -/
def matchPrintCAt (s : List Char) : Option (List Char) :=
  (matchLitCI "print(".data s).bind fun rest =>
    let run := rest.takeWhile (fun c => c ≠ ')')
    (List.range run.length).reverse.findSome? fun i =>
      if isQuote (run.getD i ' ') then
        let after := rest.drop (i + 1)
        let cap := after.takeWhile isAsciiLetter
        if cap.isEmpty then none
        else
          match after.drop cap.length with
          | q2 :: _ => if isQuote q2 then some cap else none
          | [] => none
      else none

/-- Pattern 4 helper: the first `"""(.*?)"""` (lazy, `re.DOTALL`): skip to
just past the first triple quote. -/
def afterTripleQuote : List Char → Option (List Char)
  | [] => none
  | c :: rest =>
    if c = '"' then
      match rest with
      | b :: d :: rest2 => if b = '"' ∧ d = '"' then some rest2 else afterTripleQuote rest
      | _ => none
    else afterTripleQuote rest

/-- Pattern 4 helper: the lazy capture up to the next triple quote. -/
def upToTripleQuote : List Char → Option (List Char)
  | [] => none
  | c :: rest =>
    match c :: rest with
    | a :: b :: d :: _ =>
      if a = '"' ∧ b = '"' ∧ d = '"' then some []
      else (upToTripleQuote rest).map (c :: ·)
    | _ => none

/-- `re.search(r'"""(.*?)"""', code, re.DOTALL)`: the first docstring's
body. -/
def docstringMatch (s : List Char) : Option (List Char) :=
  (afterTripleQuote s).bind upToTripleQuote

/-- Pattern 5 label alternatives (lowercased; source order). -/
def commentNames : List (List Char) :=
  ["answer".data, "solution".data, "word".data, "result".data]

/-- Pattern 5 position matcher: `#\s*(Answer|Solution|Word|Result):\s*(.+)`
(`re.IGNORECASE`, no DOTALL, so the capture stops at a newline; greedy `\s*`
backtracks when the capture would otherwise be empty). -/
def matchCommentAt (s : List Char) : Option (List Char) :=
  match s with
  | c :: rest =>
    if c = '#' then
      (commentNames.findSome? fun nm => matchLitCI nm (skipWs rest)).bind fun r2 =>
        match r2 with
        | ':' :: r3 =>
          let run := r3.takeWhile isPySpace
          let tail := r3.dropWhile isPySpace
          if tail.isEmpty then
            let capRev := run.reverse.takeWhile (fun ch => ch ≠ '\n')
            if capRev.isEmpty then none else some capRev.reverse
          else some (tail.takeWhile (fun ch => ch ≠ '\n'))
        | _ => none
    else none
  | [] => none

/-- Wrap an extracted answer as the source's `f"The answer is: {answer}"`. -/
def answerIs (a : List Char) : List Char := "The answer is: ".data ++ a

/-- Pattern 3 variable names (module-level assignment, `re.MULTILINE`). -/
def extractVarNames : List (List Char) :=
  ["word".data, "answer".data, "result".data, "solution".data,
   "riddle_solution".data, "final_answer".data, "full_word".data]

/-- Keywords looked for inside a docstring by pattern 4. -/
def docstringKeywords : List (List Char) :=
  ["answer".data, "word".data, "solution".data]

/-- `OptiLLMService._extract_answer_from_code`: try, in source order, the
return-statement pattern, the three print patterns, the anchored variable
assignment, the keyword-bearing docstring, and the labelled comment. -/
def extract_answer_from_code (code_block : List Char) : Option (List Char) :=
  let code := stripLangHeader code_block
  match searchReturnStr code with
  | some a => some (answerIs a)
  | none =>
  match searchPat matchPrintAAt code with
  | some a => some (answerIs a)
  | none =>
  match searchPat matchPrintBAt code with
  | some a => some (answerIs a)
  | none =>
  match searchPat matchPrintCAt code with
  | some a => some (answerIs a)
  | none =>
  match searchLineAnchored (tryNamesAssign extractVarNames) code with
  | some a => some (answerIs a)
  | none =>
  match (docstringMatch code).bind (fun d =>
      let ds := pyStrip d
      if docstringKeywords.any (fun kw => containsSeqCI kw ds) then some ds else none) with
  | some ds => some ds
  | none => (searchComment code).map (fun a => answerIs (pyStrip a))

where
  /-- Pattern 5: search for a labelled comment line. -/
  searchComment (s : List Char) : Option (List Char) := searchPat matchCommentAt s

/-! ### `OptiLLMService._clean_response_for_chaining` (the sanitizer) -/

/-- Variable names of the sanitizer's generic in-code answer regex. -/
def genericCleanNames : List (List Char) :=
  ["word".data, "answer".data, "result".data, "solution".data]

/-- The sanitizer's last-resort placeholder sentence. -/
def genericAnswerText : List Char :=
  "Based on the analysis above, the answer has been determined.".data

/-- Elements at odd indices 1, 3, 5, … (Python `range(1, len(parts), 2)`). -/
def oddIdx {α : Type} : List α → List α
  | _ :: b :: rest => b :: oddIdx rest
  | _ => []

/-- `OptiLLMService._clean_response_for_chaining`.  The `provider` argument
is kept (and, as in the source body, unused).  Inside the fence branch the
attempts are chained with `Option`; falling through every attempt reaches the
strip-all-fences last resort and finally the generic placeholder. -/
def clean_response_for_chaining (response : List Char) (_provider : String)
    (technique : String) : List Char :=
  if hasFence response then
    let parts := splitFence response
    let attempt : Option (List Char) :=
      if parts.length > 1 then
        let before_code := pyStrip parts.headI
        -- Python: `if before_code and len(before_code) > 50` (nonemptiness
        -- is implied by the length bound).
        if before_code.length > 50 then some before_code
        else
          let fromPlansearch : Option (List Char) :=
            if technique = "plansearch" then
              (oddIdx parts).findSome? extract_answer_from_code
            else none
          match fromPlansearch with
          | some r => some r
          | none =>
            let fromBlocks := (oddIdx parts).findSome? fun code_block =>
              match searchPat (tryNamesAssign genericCleanNames) code_block with
              | some a => some (answerIs a)
              | none =>
                (docstringMatch code_block).bind fun d =>
                  let ds := pyStrip d
                  if ds.length > 30 then some ds else none
            match fromBlocks with
            | some r => some r
            | none =>
              (oddIdx (parts.drop 1)).findSome? fun between =>
                let b := pyStrip between
                if b.length > 30 then some b else none
      else none
    match attempt with
    | some r => r
    | none =>
      let cleaned := pyStrip (fenceSub response)
      if cleaned.length > 20 then cleaned else genericAnswerText
  else if response.length > 2000 then response.take 2000 ++ ['.', '.', '.']
  else response

/-- The sanitizer at the `String` boundary used by the pipeline. -/
def cleanS (response provider technique : String) : String :=
  String.mk (clean_response_for_chaining response.data provider technique)

/-! ### `RateLimiter` -/

/-- `RateLimiter.limits`: requests-per-minute ceiling per provider (the
Python `dict.get(provider, 60)` default). -/
def rateLimits (provider : String) : Nat :=
  if provider = "google" then 15
  else if provider = "openai" then 3
  else if provider = "anthropic" then 50
  else 60

/-- `RateLimiter.min_delays`: minimum inter-call spacing per provider
(seconds; `dict.get(provider, 1.0)` default). -/
def minDelays (provider : String) : ℚ :=
  if provider = "google" then 4.5
  else if provider = "openai" then 20
  else if provider = "anthropic" then 1.5
  else 1

/-- `RateLimiter.get_requests_in_last_minute`: calls with timestamp strictly
newer than `now - 60`. -/
def get_requests_in_last_minute (now : ℚ) (times : List ℚ) : Nat :=
  (times.filter (fun t => now - 60 < t)).length

/-- `RateLimiter.should_throttle`.  `times` is the request-times deque in
chronological order; `request_times[0]` is its head (the branch is only
reachable with a non-empty deque, since the count condition needs at least
`limit ≥ 3` recorded calls; `headI` returns `0` on `[]`). -/
def should_throttle (provider : String) (now : ℚ) (times : List ℚ) : Bool × ℚ :=
  if rateLimits provider ≤ get_requests_in_last_minute now times then
    (true, max (60 - (now - times.headI) + 1) 0)
  else (false, 0)

/-- `RateLimiter.get_delay`: remaining minimum-spacing wait relative to the
most recent recorded call. -/
def get_delay (provider : String) (now : ℚ) (times : List ℚ) : ℚ :=
  match times.getLast? with
  | none => 0
  | some last =>
    if now - last < minDelays provider then minDelays provider - (now - last) else 0

/-- The deque's `maxlen=50` bound on append. -/
def boundedAppend (times : List ℚ) (t : ℚ) : List ℚ :=
  let l := times ++ [t]
  if 50 < l.length then l.drop (l.length - 50) else l

/-- `RateLimiter.wait_if_needed`: returns the list of sleeps performed, the
clock after sleeping, and the updated request history.  Sleeping advances the
abstract clock by the slept amount. -/
def wait_if_needed (provider : String) (now : ℚ) (times : List ℚ) :
    List ℚ × ℚ × List ℚ :=
  let st := should_throttle provider now times
  let now1 := if st.1 then now + st.2 else now
  let sleeps1 : List ℚ := if st.1 then [st.2] else []
  let d := get_delay provider now1 times
  let now2 := if 0 < d then now1 + d else now1
  let sleeps2 := if 0 < d then sleeps1 ++ [d] else sleeps1
  (sleeps2, now2, boundedAppend times now2)

/-! ### `OptiLLMService.apply_techniques` (the technique pipeline) -/

/-- Outcome of one technique invocation against the provider, as seen by the
pipeline's `try`/`except`: a successful text, an `openai.RateLimitError`, or
an `openai.APIError` carrying an optional HTTP status code. -/
inductive TechResult where
  | ok (text : String)
  | rateLimit
  | apiErr (status : Option Nat) (msg : String)

/-- Result of the pipeline at its public boundary: the final text, a raised
`HTTPException(status_code, detail)`, or a raised
`ValueError("Unknown technique: ...")`. -/
inductive PipeResult where
  | text (s : String)
  | httpErr (status : Nat) (detail : String)
  | valueErr (msg : String)
deriving DecidableEq, Repr

/-- The keys of `OptiLLMService.TECHNIQUES` (enabled techniques only). -/
def registeredTechniques : List String :=
  ["moa", "cot_reflection", "plansearch", "bon", "self_consistency", "leap", "rto", "mcts"]

/-- `OptiLLMService._parse_messages`: last system-role content and last
user-role content (messages as role/content pairs). -/
def parse_messages (messages : List (String × String)) : String × String :=
  messages.foldl
    (fun acc m =>
      if m.1 = "system" then (m.2, acc.2)
      else if m.1 = "user" then (acc.1, m.2)
      else acc)
    ("", "")

/-- The detail string of the rate-limit `HTTPException` raised after
exhausting retries (it interpolates only the number of techniques). -/
def rateLimitDetail (n : Nat) : String :=
  "⏱️ Rate limit exceeded. Please try again in a few minutes. Tip: Use fewer techniques ("
    ++ toString n ++ " selected) to avoid limits."

/-- The `except APIError` dispatch of `apply_techniques`: map a provider API
error to the raised `HTTPException`'s status code and detail. -/
def apiErrorResponse (technique : String) (status : Option Nat) (msg : String) :
    Nat × String :=
  match status with
  | some 400 =>
    if containsSeqCS "Value is not a struct".data msg.data
        || containsSeqCI "struct".data msg.data then
      (400, "Provider rejected request in " ++ technique
        ++ ". This may be due to code blocks in the response. Try using " ++ technique
        ++ " as the last technique, or use a different provider.")
    else (400, "Provider rejected request in " ++ technique ++ ": " ++ msg)
  | some 429 =>
    (429, "Rate limit exceeded in " ++ technique ++ ". Please wait and try again.")
  | some s =>
    if 500 ≤ s then
      (502, "Provider service error in " ++ technique
        ++ ". The API may be experiencing issues.")
    else (502, "LLM API error in " ++ technique ++ ": " ++ msg)
  | none => (502, "LLM API error in " ++ technique ++ ": " ++ msg)

/-- The per-technique retry loop of `apply_techniques` (`max_retries = 3`).
`exec` is the technique-invocation oracle, fed the global invocation counter,
the technique name, the system prompt and the current query.  Returns the
cleaned response (or the raised error), the new invocation counter, and the
backoff sleeps performed (`5 * 2 ** (retry_count - 1)` seconds).
The source's `while retry_count < max_retries` guard is carried structurally
as `attemptsLeft = max_retries - retry_count` (callers start at
`attemptsLeft = 3`, `retry_count = 0`); exhausting the guard leaves the
current query unchanged, exactly as falling out of the `while` does. -/
def techLoop (exec : Nat → String → String → String → TechResult)
    (provider technique sysPrompt query : String) (nTech : Nat) :
    Nat → Nat → Nat → Except (Nat × String) String × Nat × List Nat
  | 0, counter, _ => (.ok query, counter, [])
  | att + 1, counter, retry_count =>
    match exec counter technique sysPrompt query with
    | .ok resp => (.ok (cleanS resp provider technique), counter + 1, [])
    | .rateLimit =>
      let rc := retry_count + 1
      if 3 ≤ rc then (.error (429, rateLimitDetail nTech), counter + 1, [])
      else
        let w := 5 * 2 ^ (rc - 1)
        let r := techLoop exec provider technique sysPrompt query nTech att (counter + 1) rc
        (r.1, r.2.1, w :: r.2.2)
    | .apiErr st msg => (.error (apiErrorResponse technique st msg), counter + 1, [])

/-- The technique fold of `apply_techniques`: check registration, run the
retry loop, feed the cleaned output forward as the next query. -/
def techChain (exec : Nat → String → String → String → TechResult)
    (provider sysPrompt : String) (nTech : Nat) :
    List String → String → Nat → List Nat → PipeResult × List Nat
  | [], query, _, sleeps => (.text query, sleeps)
  | t :: rest, query, counter, sleeps =>
    if t ∈ registeredTechniques then
      match techLoop exec provider t sysPrompt query nTech 3 counter 0 with
      | (.ok query', counter', sl) =>
        techChain exec provider sysPrompt nTech rest query' counter' (sleeps ++ sl)
      | (.error e, _, sl) => (.httpErr e.1 e.2, sleeps ++ sl)
    else (.valueErr ("Unknown technique: " ++ t), sleeps)

/-- `OptiLLMService.apply_techniques`.  `direct` is the assistant text of the
single direct completion issued on the techniques-free fast path.  The rate
limiter's `wait_if_needed` calls only pace execution (they influence no
result and are not logged here); the backoff sleeps of the retry loop are
returned. -/
def apply_techniques (exec : Nat → String → String → String → TechResult)
    (direct : String) (provider : String) (messages : List (String × String))
    (techniques : List String) : PipeResult × List Nat :=
  let sq := parse_messages messages
  if techniques.isEmpty then (.text direct, [])
  else techChain exec provider sq.1 techniques.length techniques sq.2 0 []

/-! ### Workflow data model (`workflow_models.py`, `workflow_repo.py`) -/

/-- `WorkflowStatus`. -/
inductive WorkflowStatus where
  | PENDING | RUNNING | PAUSED | COMPLETED | FAILED | CANCELLED
deriving DecidableEq, Repr, Inhabited

/-- `StepStatus`. -/
inductive StepStatus where
  | PENDING | RUNNING | WAITING_APPROVAL | APPROVED | REJECTED | COMPLETED | FAILED | SKIPPED
deriving DecidableEq, Repr, Inhabited

/-- A `WorkflowStep` row restricted to the fields the claims speak about
(step type, model, techniques, parameters, prompts and timing fields are
omitted: they never influence the orchestrator's control flow modelled
here). -/
structure Step where
  name : String
  requires_approval : Bool
  status : StepStatus
  output : Option String
  user_feedback : Option String
  error_message : Option String
deriving DecidableEq, Repr, Inhabited

/-- A `Workflow` row restricted likewise. -/
structure WorkflowSt where
  status : WorkflowStatus
  current_step_index : Nat
  steps : List Step
  error_message : Option String
  result : Option String
deriving DecidableEq, Repr, Inhabited

/-- `WorkflowRepository.update_status` (timestamps dropped; the error
message is stored only when truthy, mirroring `if error_message:`). -/
def update_status (wf : WorkflowSt) (status : WorkflowStatus)
    (error_message : Option String) : WorkflowSt :=
  { wf with
    status := status
    error_message :=
      match error_message with
      | some m => if m = "" then wf.error_message else some m
      | none => wf.error_message }

/-- `WorkflowRepository.advance_step`: increment the index and mark the
workflow COMPLETED when the index reaches the step count. -/
def advance_step (wf : WorkflowSt) : WorkflowSt :=
  let wf' := { wf with current_step_index := wf.current_step_index + 1 }
  if wf'.steps.length ≤ wf'.current_step_index then
    { wf' with status := WorkflowStatus.COMPLETED }
  else wf'

/-- In-place mutation of one step row (SQLAlchemy identity-map write). -/
def setStep (wf : WorkflowSt) (j : Nat) (st : Step) : WorkflowSt :=
  { wf with steps := wf.steps.set j st }

/-- `WorkflowRepository.create` followed by `add_step` for each listed
(name, requires_approval) pair; a fresh step row has the model defaults
(status PENDING, everything else empty). -/
def mkStep (nm : String) (requires_approval : Bool) : Step :=
  { name := nm, requires_approval := requires_approval, status := StepStatus.PENDING,
    output := none, user_feedback := none, error_message := none }

/-- A freshly created workflow: status PENDING, `current_step_index = 0`. -/
def create_workflow (stepSpecs : List (String × Bool)) : WorkflowSt :=
  { status := WorkflowStatus.PENDING, current_step_index := 0,
    steps := stepSpecs.map (fun p => mkStep p.1 p.2),
    error_message := none, result := none }

/-- `WorkflowOrchestrator._compile_results`: concatenate, in step order, a
heading and the output of every step with truthy output. -/
def compile_results (steps : List Step) : String :=
  steps.foldl
    (fun acc st =>
      match st.output with
      | some o => if o = "" then acc else acc ++ "## " ++ st.name ++ "\n\n" ++ o ++ "\n\n"
      | none => acc)
    ""

/-! ### `WorkflowOrchestrator` -/

/-- Outcome of `_execute_step`'s work for one step, provided by an oracle:
a successful output, an error result (the external-service `{"error": ...}`
path, which leaves the step row as it was when marked RUNNING), or a caught
exception (the `except` inside `_execute_step`, which also records the step's
`error_message`).  Both error flavours surface as `{"error": msg}` to the
workflow loop. -/
inductive StepOutcome where
  | ok (output : String)
  | errResult (msg : String)
  | raised (msg : String)

/-- Discriminated results returned by the orchestrator's public operations.
`raisedExn` models an exception escaping `approve_step` (Python `IndexError`
on a negative index below `-len(steps)`). -/
inductive OrchResult where
  | errorRes (msg : String)
  | pausedForApproval (idx : Nat) (step_name : String) (output : Option String)
  | failed (msg : String)
  | completed (result : String)
  | rejected (idx : Int)
  | raisedExn
deriving DecidableEq, Repr

/-- The `while current_step_index < len(steps)` loop of `execute_workflow`,
returning the result, the final workflow state, and the trace of
`update_status` calls made (used to observe the status path).  `k` counts
step executions and indexes the outcome oracle. -/
def executeLoop (outcomes : Nat → StepOutcome) (k : Nat) (wf : WorkflowSt) :
    OrchResult × WorkflowSt × List WorkflowStatus :=
  if h : wf.current_step_index < wf.steps.length then
    let step := wf.steps.getD wf.current_step_index default
    if step.requires_approval = true ∧ step.status = StepStatus.WAITING_APPROVAL then
      (.pausedForApproval wf.current_step_index step.name step.output,
       update_status wf WorkflowStatus.PAUSED none, [WorkflowStatus.PAUSED])
    else
      let stepR := { step with status := StepStatus.RUNNING }
      match outcomes k with
      | .errResult msg =>
        (.failed msg,
         update_status (setStep wf wf.current_step_index stepR) WorkflowStatus.FAILED (some msg),
         [WorkflowStatus.FAILED])
      | .raised msg =>
        (.failed msg,
         update_status (setStep wf wf.current_step_index { stepR with error_message := some msg })
           WorkflowStatus.FAILED (some msg),
         [WorkflowStatus.FAILED])
      | .ok out =>
        let stepO := { stepR with output := some out }
        if step.requires_approval = true then
          let stepW := { stepO with status := StepStatus.WAITING_APPROVAL }
          (.pausedForApproval wf.current_step_index step.name stepW.output,
           update_status (setStep wf wf.current_step_index stepW) WorkflowStatus.PAUSED none,
           [WorkflowStatus.PAUSED])
        else
          let stepC := { stepO with status := StepStatus.COMPLETED }
          executeLoop outcomes (k + 1) (advance_step (setStep wf wf.current_step_index stepC))
  else
    let wf' := update_status wf WorkflowStatus.COMPLETED none
    let final := compile_results wf'.steps
    (.completed final, { wf' with result := some final }, [WorkflowStatus.COMPLETED])
termination_by wf.steps.length - wf.current_step_index
decreasing_by simp_wf; simp [advance_step, setStep]; split <;> simp <;> omega

/-- `WorkflowOrchestrator.execute_workflow`. -/
def execute_workflow (outcomes : Nat → StepOutcome) (store : Option WorkflowSt) :
    OrchResult × Option WorkflowSt × List WorkflowStatus :=
  match store with
  | none => (.errorRes "Workflow not found", none, [])
  | some wf =>
    let pre :=
      if wf.status = WorkflowStatus.PENDING then
        (update_status wf WorkflowStatus.RUNNING none, [WorkflowStatus.RUNNING])
      else (wf, ([] : List WorkflowStatus))
    let r := executeLoop outcomes 0 pre.1
    (r.1, some r.2.1, pre.2 ++ r.2.2)

/-- Python list indexing semantics for `workflow.steps[step_index]` when
`step_index` may be negative: a non-negative index is used as is, an index in
`[-len, -1]` counts from the end, and anything below `-len` raises
`IndexError` (`none`). -/
def pyIndex (len : Nat) (i : Int) : Option Nat :=
  if 0 ≤ i then some i.toNat
  else if 0 ≤ (len : Int) + i then some ((len : Int) + i).toNat
  else none

/-- `WorkflowOrchestrator.approve_step`.  The source sets the step APPROVED
and immediately COMPLETED before advancing; the net row state written is
COMPLETED. -/
def approve_step (outcomes : Nat → StepOutcome) (store : Option WorkflowSt)
    (step_index : Int) (approved : Bool) (feedback : Option String) :
    OrchResult × Option WorkflowSt × List WorkflowStatus :=
  match store with
  | none => (.errorRes "Workflow not found", none, [])
  | some wf =>
    if (wf.steps.length : Int) ≤ step_index then (.errorRes "Step not found", some wf, [])
    else
      match pyIndex wf.steps.length step_index with
      | none => (.raisedExn, some wf, [])
      | some j =>
        let step := wf.steps.getD j default
        if step.status ≠ StepStatus.WAITING_APPROVAL then
          (.errorRes "Step is not waiting for approval", some wf, [])
        else
          let step1 :=
            match feedback with
            | some f => if f = "" then step else { step with user_feedback := some f }
            | none => step
          if approved then
            let wf2 := advance_step (setStep wf j { step1 with status := StepStatus.COMPLETED })
            execute_workflow outcomes (some wf2)
          else
            let wf2 := update_status (setStep wf j { step1 with status := StepStatus.REJECTED })
              WorkflowStatus.FAILED (some "Step rejected by user")
            (.rejected step_index, some wf2, [WorkflowStatus.FAILED])

/-- One externally invokable operation on the workflow store, with its step
oracle where step execution can happen. -/
inductive Op where
  | execW (outcomes : Nat → StepOutcome)
  | approve (outcomes : Nat → StepOutcome) (step_index : Int) (approved : Bool)
      (feedback : Option String)
  | advance

/-- The orchestrator's own operations (the repository's `advance_step` is
not among them: the orchestrator only invokes it internally). -/
def Op.isOrch : Op → Prop
  | .advance => False
  | _ => True

/-- Apply one operation to the store, keeping only the resulting state. -/
def applyOp (store : Option WorkflowSt) : Op → Option WorkflowSt
  | .execW oc => (execute_workflow oc store).2.1
  | .approve oc i a fb => (approve_step oc store i a fb).2.1
  | .advance => store.map advance_step

/-- Apply a sequence of operations left to right. -/
def applyOps (ops : List Op) (store : Option WorkflowSt) : Option WorkflowSt :=
  ops.foldl applyOp store

/-- The invariant claimed for `current_step_index`. -/
def ClaimInv (wf : WorkflowSt) : Prop :=
  wf.current_step_index ≤ wf.steps.length ∧
    (wf.current_step_index = wf.steps.length ↔ wf.status = WorkflowStatus.COMPLETED)

instance (wf : WorkflowSt) : Decidable (ClaimInv wf) := by
  unfold ClaimInv; exact inferInstance

/-- A step row in WAITING_APPROVAL can only sit at the current index. -/
def WaitInv (wf : WorkflowSt) : Prop :=
  ∀ j, j < wf.steps.length →
    (wf.steps.getD j default).status = StepStatus.WAITING_APPROVAL →
    j = wf.current_step_index

/-- The inductive strengthening of `ClaimInv`. -/
def FullInv (wf : WorkflowSt) : Prop := ClaimInv wf ∧ WaitInv wf

/-- Fixed oracle used by witnesses on paths where no step executes. -/
def ocTrivial : Nat → StepOutcome := fun _ => StepOutcome.ok "out"

/-- A one-step workflow paused at its approval gate (witness fixture). -/
def waitingWf : WorkflowSt :=
  { status := WorkflowStatus.PAUSED, current_step_index := 0,
    steps := [{ name := "plan", requires_approval := true,
                status := StepStatus.WAITING_APPROVAL, output := some "draft",
                user_feedback := none, error_message := none }],
    error_message := none, result := none }

/-- The concrete sanitizer input of the HEROINE scenario. -/
def heroineInput : String := "```python\nreturn \"HEROINE\"\n```"

/-! ### Helper lemmas -/

theorem getD_set_self {α : Type} [Inhabited α] :
    ∀ (l : List α) (i : Nat) (a : α), i < l.length → (l.set i a).getD i default = a := by
  intro l
  induction l with
  | nil => intro i a h; simp at h
  | cons b t ih =>
    intro i a h
    cases i with
    | zero => rfl
    | succ n => simpa [List.getD] using ih n a (by simpa using h)

theorem getD_set_ne {α : Type} [Inhabited α] :
    ∀ (l : List α) (i j : Nat) (a : α), i ≠ j → (l.set i a).getD j default = l.getD j default := by
  intro l
  induction l with
  | nil => intro i j a _; simp [List.set]
  | cons b t ih =>
    intro i j a hij
    cases i with
    | zero =>
      cases j with
      | zero => exact absurd rfl hij
      | succ m => rfl
    | succ n =>
      cases j with
      | zero => rfl
      | succ m => simpa [List.getD] using ih n m a (by omega)

@[simp] theorem update_status_status (wf : WorkflowSt) (s : WorkflowStatus)
    (e : Option String) : (update_status wf s e).status = s := rfl

@[simp] theorem update_status_index (wf : WorkflowSt) (s : WorkflowStatus)
    (e : Option String) : (update_status wf s e).current_step_index = wf.current_step_index := rfl

@[simp] theorem update_status_steps (wf : WorkflowSt) (s : WorkflowStatus)
    (e : Option String) : (update_status wf s e).steps = wf.steps := rfl

@[simp] theorem setStep_steps (wf : WorkflowSt) (j : Nat) (st : Step) :
    (setStep wf j st).steps = wf.steps.set j st := rfl

@[simp] theorem setStep_index (wf : WorkflowSt) (j : Nat) (st : Step) :
    (setStep wf j st).current_step_index = wf.current_step_index := rfl

@[simp] theorem setStep_status (wf : WorkflowSt) (j : Nat) (st : Step) :
    (setStep wf j st).status = wf.status := rfl

theorem advance_step_index (wf : WorkflowSt) :
    (advance_step wf).current_step_index = wf.current_step_index + 1 := by
  unfold advance_step; dsimp only; split <;> rfl

theorem advance_step_steps (wf : WorkflowSt) : (advance_step wf).steps = wf.steps := by
  unfold advance_step; dsimp only; split <;> rfl

theorem advance_step_status (wf : WorkflowSt) :
    (advance_step wf).status =
      if wf.steps.length ≤ wf.current_step_index + 1 then WorkflowStatus.COMPLETED
      else wf.status := by
  unfold advance_step; dsimp only; split <;> simp_all

theorem startsWithFence_append_dots (l : List Char) (h : startsWithFence l = false) :
    startsWithFence (l ++ ['.', '.', '.']) = false := by
  rcases l with _ | ⟨a, _ | ⟨b, _ | ⟨c, rest⟩⟩⟩
  · decide
  · simp only [List.cons_append, List.nil_append, startsWithFence]
    simp [show (('.' : Char) = btick) = False by simp [btick]]
  · simp only [List.cons_append, List.nil_append, startsWithFence]
    simp [show (('.' : Char) = btick) = False by simp [btick]]
  · simpa only [List.cons_append, startsWithFence] using h

theorem hasFence_append_dots (l : List Char) (h : hasFence l = false) :
    hasFence (l ++ ['.', '.', '.']) = false := by
  induction l with
  | nil => decide
  | cons c rest ih =>
    simp only [hasFence, Bool.or_eq_false_iff] at h
    simp only [List.cons_append, hasFence, Bool.or_eq_false_iff]
    refine ⟨?_, ih h.2⟩
    simpa only [List.cons_append] using startsWithFence_append_dots (c :: rest) h.1

theorem startsWithFence_take (n : Nat) (l : List Char)
    (h : startsWithFence (l.take n) = true) : startsWithFence l = true := by
  rcases l with _ | ⟨a, _ | ⟨b, _ | ⟨c, rest⟩⟩⟩ <;>
    rcases n with _ | _ | _ | n <;>
    simp_all [startsWithFence, List.take]

theorem hasFence_take (n : Nat) (l : List Char) (h : hasFence l = false) :
    hasFence (l.take n) = false := by
  induction l generalizing n with
  | nil => simp [List.take, hasFence]
  | cons c rest ih =>
    cases n with
    | zero => simp [List.take, hasFence]
    | succ m =>
      simp only [hasFence, Bool.or_eq_false_iff] at h
      simp only [List.take, hasFence, Bool.or_eq_false_iff]
      refine ⟨?_, ih m h.2⟩
      cases hsw : startsWithFence (c :: rest.take m)
      · rfl
      · exact absurd (startsWithFence_take (m + 1) (c :: rest) (by simpa [List.take] using hsw)) (by simp [h.1])

theorem clean_of_no_fence (s : List Char) (p t : String) (h : hasFence s = false) :
    clean_response_for_chaining s p t =
      if 2000 < s.length then s.take 2000 ++ ['.', '.', '.'] else s := by
  unfold clean_response_for_chaining
  simp [h]

theorem cleanS_of_no_fence (s : String) (p t : String) (h : hasFence s.data = false) :
    cleanS s p t =
      if 2000 < s.length then String.mk (s.data.take 2000 ++ ['.', '.', '.']) else s := by
  unfold cleanS
  rw [clean_of_no_fence s.data p t h]
  by_cases h2 : 2000 < s.data.length
  · rw [if_pos h2, if_pos (show 2000 < s.length from h2)]
  · rw [if_neg h2, if_neg (show ¬ 2000 < s.length from h2)]

theorem cleanS_id (s : String) (p t : String) (h : hasFence s.data = false)
    (hl : ¬ 2000 < s.length) : cleanS s p t = s := by
  rw [cleanS_of_no_fence s p t h, if_neg hl]

/-- C6: on text with no fenced-code marker the sanitizer only truncates to
the 2000-character cap (appending an ellipsis when it does), and on such
text it is idempotent, for every provider and technique hint. -/
theorem c6_sanitizer_clean (s p t p2 t2 : String) (h : hasFence s.data = false) :
    cleanS s p t =
      (if 2000 < s.length then String.mk (s.data.take 2000 ++ ['.', '.', '.']) else s) ∧
    cleanS (cleanS s p t) p2 t2 = cleanS s p t := by
  refine ⟨cleanS_of_no_fence s p t h, ?_⟩
  by_cases h2 : 2000 < s.length
  · have e1 : cleanS s p t = String.mk (s.data.take 2000 ++ ['.', '.', '.']) := by
      rw [cleanS_of_no_fence s p t h, if_pos h2]
    have hdata : (cleanS s p t).data = s.data.take 2000 ++ ['.', '.', '.'] := by
      rw [e1]
    have hf2 : hasFence (cleanS s p t).data = false := by
      rw [hdata]
      exact hasFence_append_dots _ (hasFence_take _ _ h)
    have hdlen : 2000 < s.data.length := h2
    have htake : (s.data.take 2000).length = 2000 := by
      rw [List.length_take]
      omega
    have hlen2 : 2000 < (cleanS s p t).length := by
      show 2000 < (cleanS s p t).data.length
      rw [hdata, List.length_append, htake]
      norm_num
    have hsplit : (s.data.take 2000 ++ ['.', '.', '.']).take 2000 = s.data.take 2000 := by
      have h3 := List.take_left (s.data.take 2000) (['.', '.', '.'] : List Char)
      rwa [htake] at h3
    rw [cleanS_of_no_fence _ p2 t2 hf2, if_pos hlen2, e1]
    show String.mk ((s.data.take 2000 ++ ['.', '.', '.']).take 2000 ++ ['.', '.', '.']) = _
    rw [hsplit]
  · have e1 : cleanS s p t = s := cleanS_id s p t h h2
    rw [e1]
    exact cleanS_id s p2 t2 h h2

/-- C6 witness: the clean-text branch and idempotence evaluated at a
concrete short input. -/
theorem c6_sanitizer_clean_witness :
    hasFence ("hello world" : String).data = false ∧
    (cleanS "hello world" "google" "bon" =
        (if 2000 < ("hello world" : String).length then
          String.mk (("hello world" : String).data.take 2000 ++ ['.', '.', '.'])
         else "hello world") ∧
      cleanS (cleanS "hello world" "google" "bon") "openai" "moa" =
        cleanS "hello world" "google" "bon") :=
  ⟨by decide, c6_sanitizer_clean "hello world" "google" "bon" "openai" "moa" (by decide)⟩

/-- C7 counterexample: with any technique hint other than `plansearch`
(here `bon`), the HEROINE fenced block is sanitized to the generic
placeholder sentence, not to `The answer is: HEROINE`. -/
theorem c7_counterexample :
    cleanS heroineInput "google" "bon" =
      "Based on the analysis above, the answer has been determined." ∧
    cleanS heroineInput "google" "bon" ≠ "The answer is: HEROINE" := by
  constructor
  · rfl
  · decide

/-- C7 (amended): when the sanitizer runs with the designated technique hint
`plansearch`, the output text `(fence)python\nreturn "HEROINE"\n(fence)` is
sanitized to exactly `The answer is: HEROINE`, for every provider hint. -/
theorem c7_plansearch (p : String) :
    cleanS heroineInput p "plansearch" = "The answer is: HEROINE" := rfl

/-- C10: executing a zero-step PENDING workflow immediately compiles the
empty result: status is updated to RUNNING and then COMPLETED, the returned
result is `completed` with empty text, and `current_step_index` stays 0. -/
theorem c10_empty_workflow (oc : Nat → StepOutcome) (wf : WorkflowSt)
    (hsteps : wf.steps = []) (hstatus : wf.status = WorkflowStatus.PENDING)
    (hidx : wf.current_step_index = 0) :
    execute_workflow oc (some wf) =
      (OrchResult.completed "",
       some { wf with status := WorkflowStatus.COMPLETED, result := some "" },
       [WorkflowStatus.RUNNING, WorkflowStatus.COMPLETED]) := by
  have hstop : executeLoop oc 0 (update_status wf WorkflowStatus.RUNNING none) =
      (OrchResult.completed "",
       { update_status (update_status wf WorkflowStatus.RUNNING none)
           WorkflowStatus.COMPLETED none with result := some "" },
       [WorkflowStatus.COMPLETED]) := by
    rw [executeLoop.eq_def]
    rw [dif_neg (by simp [hsteps, hidx])]
    simp [compile_results, hsteps]
  simp only [execute_workflow, hstatus, if_true]
  rw [hstop]
  rfl

/-- C10 witness: the theorem applied to a freshly created zero-step
workflow. -/
theorem c10_empty_workflow_witness :
    ((create_workflow []).steps = [] ∧
      (create_workflow []).status = WorkflowStatus.PENDING ∧
      (create_workflow []).current_step_index = 0) ∧
    execute_workflow ocTrivial (some (create_workflow [])) =
      (OrchResult.completed "",
       some { create_workflow [] with status := WorkflowStatus.COMPLETED, result := some "" },
       [WorkflowStatus.RUNNING, WorkflowStatus.COMPLETED]) :=
  ⟨⟨rfl, rfl, rfl⟩, c10_empty_workflow ocTrivial (create_workflow []) rfl rfl rfl⟩

/-- C3: approving or rejecting a step whose status is not WAITING_APPROVAL,
at an in-range index, returns the structured error and leaves the stored
workflow (status, index, and every step row) untouched. -/
theorem c3_approval_gate_error (oc : Nat → StepOutcome) (wf : WorkflowSt) (i : Nat)
    (approved : Bool) (fb : Option String) (hi : i < wf.steps.length)
    (hst : (wf.steps.getD i default).status ≠ StepStatus.WAITING_APPROVAL) :
    approve_step oc (some wf) (i : Int) approved fb =
      (OrchResult.errorRes "Step is not waiting for approval", some wf, []) := by
  simp only [approve_step]
  have h1 : ¬ ((wf.steps.length : Int) ≤ (i : Int)) := by exact_mod_cast Nat.not_le.mpr hi
  rw [if_neg h1]
  have h2 : pyIndex wf.steps.length (i : Int) = some i := by
    unfold pyIndex
    rw [if_pos (Int.natCast_nonneg i)]
    simp
  rw [h2]
  dsimp only
  rw [if_pos hst]

/-- C3 witness: the theorem at a one-step PENDING workflow, for both the
approve and the reject flag. -/
theorem c3_approval_gate_error_witness :
    (0 < (create_workflow [("plan", true)]).steps.length ∧
      ((create_workflow [("plan", true)]).steps.getD 0 default).status ≠
        StepStatus.WAITING_APPROVAL) ∧
    approve_step ocTrivial (some (create_workflow [("plan", true)])) 0 true none =
      (OrchResult.errorRes "Step is not waiting for approval",
       some (create_workflow [("plan", true)]), []) ∧
    approve_step ocTrivial (some (create_workflow [("plan", true)])) 0 false (some "fb") =
      (OrchResult.errorRes "Step is not waiting for approval",
       some (create_workflow [("plan", true)]), []) :=
  ⟨⟨by decide, by decide⟩,
   c3_approval_gate_error ocTrivial (create_workflow [("plan", true)]) 0 true none
     (by decide) (by decide),
   c3_approval_gate_error ocTrivial (create_workflow [("plan", true)]) 0 false (some "fb")
     (by decide) (by decide)⟩

/-- C4: rejecting a step in WAITING_APPROVAL marks it REJECTED, fails the
workflow with the fixed message, returns the rejected result, and touches no
other step nor the current index. -/
theorem c4_rejection_terminal (oc : Nat → StepOutcome) (wf : WorkflowSt) (j : Nat)
    (fb : Option String) (hj : j < wf.steps.length)
    (hw : (wf.steps.getD j default).status = StepStatus.WAITING_APPROVAL) :
    ∃ wf2,
      approve_step oc (some wf) (j : Int) false fb =
        (OrchResult.rejected (j : Int), some wf2, [WorkflowStatus.FAILED]) ∧
      wf2.status = WorkflowStatus.FAILED ∧
      wf2.error_message = some "Step rejected by user" ∧
      wf2.current_step_index = wf.current_step_index ∧
      wf2.steps.length = wf.steps.length ∧
      (wf2.steps.getD j default).status = StepStatus.REJECTED ∧
      ∀ k, k ≠ j → wf2.steps.getD k default = wf.steps.getD k default := by
  simp only [approve_step]
  have h1 : ¬ ((wf.steps.length : Int) ≤ (j : Int)) := by exact_mod_cast Nat.not_le.mpr hj
  rw [if_neg h1]
  have h2 : pyIndex wf.steps.length (j : Int) = some j := by
    unfold pyIndex
    rw [if_pos (Int.natCast_nonneg j)]
    simp
  rw [h2]
  dsimp only
  rw [if_neg (not_not_intro hw), if_neg Bool.false_ne_true]
  refine ⟨_, rfl, rfl, ?_, ?_, ?_, ?_, ?_⟩
  · rfl
  · rfl
  · simp
  · simp only [update_status_steps, setStep_steps]
    rw [getD_set_self wf.steps j _ hj]
  · intro k hk
    simp only [update_status_steps, setStep_steps]
    exact getD_set_ne wf.steps j k _ (fun e => hk e.symm)

/-- C4 witness: rejecting the waiting step of the paused fixture workflow. -/
theorem c4_rejection_terminal_witness :
    (0 < waitingWf.steps.length ∧
      (waitingWf.steps.getD 0 default).status = StepStatus.WAITING_APPROVAL) ∧
    ∃ wf2,
      approve_step ocTrivial (some waitingWf) 0 false (some "too short") =
        (OrchResult.rejected 0, some wf2, [WorkflowStatus.FAILED]) ∧
      wf2.status = WorkflowStatus.FAILED ∧
      wf2.error_message = some "Step rejected by user" ∧
      wf2.current_step_index = waitingWf.current_step_index ∧
      wf2.steps.length = waitingWf.steps.length ∧
      (wf2.steps.getD 0 default).status = StepStatus.REJECTED ∧
      ∀ k, k ≠ 0 → wf2.steps.getD k default = waitingWf.steps.getD k default :=
  ⟨⟨by decide, by decide⟩,
   c4_rejection_terminal ocTrivial waitingWf 0 (some "too short") (by decide) (by decide)⟩

/-- C9 counterexample: the claim demands a structured error for every
negative index, but `approve_step` with index `-1` on a one-step workflow
whose step waits for approval rejects that step (Python negative indexing)
and mutates the store. -/
theorem c9_counterexample :
    (approve_step ocTrivial (some waitingWf) (-1) false none).1 =
      OrchResult.rejected (-1) ∧
    (approve_step ocTrivial (some waitingWf) (-1) false none).2.1 ≠ some waitingWf := by
  constructor
  · rfl
  · decide

/-- C9 (amended): `approve_step` returns the structured not-found errors
for a missing workflow and for `step_index ≥ len(steps)`, both without
mutation; an index below `-len(steps)` escapes as an (unstructured)
IndexError, also without mutation.  Negative indices in `[-len, -1]` are not
range-checked at all: they alias steps from the end. -/
theorem c9_bounds (oc : Nat → StepOutcome) (wf : WorkflowSt) (i : Int) (a : Bool)
    (fb : Option String) :
    approve_step oc none i a fb = (OrchResult.errorRes "Workflow not found", none, []) ∧
    ((wf.steps.length : Int) ≤ i →
      approve_step oc (some wf) i a fb =
        (OrchResult.errorRes "Step not found", some wf, [])) ∧
    (i < -(wf.steps.length : Int) →
      approve_step oc (some wf) i a fb = (OrchResult.raisedExn, some wf, [])) := by
  refine ⟨rfl, ?_, ?_⟩
  · intro h
    simp only [approve_step]
    rw [if_pos h]
  · intro h
    simp only [approve_step]
    have h1 : ¬ ((wf.steps.length : Int) ≤ i) := by omega
    rw [if_neg h1]
    have h2 : pyIndex wf.steps.length i = none := by
      unfold pyIndex
      rw [if_neg (by omega), if_neg (by omega)]
    rw [h2]

/-- C9 witness: the amended bounds at a concrete one-step workflow with
index 5 (too large) and index -2 (below -len). -/
theorem c9_bounds_witness :
    (approve_step ocTrivial none 5 true none =
        (OrchResult.errorRes "Workflow not found", none, []) ∧
      ((waitingWf.steps.length : Int) ≤ 5 →
        approve_step ocTrivial (some waitingWf) 5 true none =
          (OrchResult.errorRes "Step not found", some waitingWf, []))) ∧
    ((-2 : Int) < -(waitingWf.steps.length : Int) →
      approve_step ocTrivial (some waitingWf) (-2) true none =
        (OrchResult.raisedExn, some waitingWf, [])) ∧
    ((waitingWf.steps.length : Int) ≤ 5 ∧ (-2 : Int) < -(waitingWf.steps.length : Int)) :=
  ⟨⟨(c9_bounds ocTrivial waitingWf 5 true none).1,
    (c9_bounds ocTrivial waitingWf 5 true none).2.1⟩,
   (c9_bounds ocTrivial waitingWf (-2) true none).2.2,
   by decide, by decide⟩

/-- C1 counterexample: with the repository's `advance_step` admitted as a
free-standing operation (as the claim words it), two advances on a freshly
created one-step workflow push `current_step_index` to 2, above the step
count, violating the claimed invariant. -/
theorem c1_counterexample :
    ¬ ClaimInv ((applyOps [Op.advance, Op.advance]
        (some (create_workflow [("step", false)]))).getD default) := by
  decide

theorem techLoop_ok_of_pos {exec : Nat → String → String → String → TechResult}
    {provider technique sysPrompt query : String} {nTech att counter retry_count : Nat}
    {resp : String} (hatt : 0 < att)
    (hex : exec counter technique sysPrompt query = TechResult.ok resp) :
    techLoop exec provider technique sysPrompt query nTech att counter retry_count =
      (.ok (cleanS resp provider technique), counter + 1, []) := by
  rcases att with _ | a
  · exact absurd hatt (lt_irrefl 0)
  · rw [techLoop, hex]

theorem techLoop_rl_stop {exec : Nat → String → String → String → TechResult}
    {provider technique sysPrompt query : String} {nTech att counter retry_count : Nat}
    (hatt : 0 < att)
    (hex : exec counter technique sysPrompt query = TechResult.rateLimit)
    (hrc : 3 ≤ retry_count + 1) :
    techLoop exec provider technique sysPrompt query nTech att counter retry_count =
      (.error (429, rateLimitDetail nTech), counter + 1, []) := by
  rcases att with _ | a
  · exact absurd hatt (lt_irrefl 0)
  · rw [techLoop, hex]
    dsimp only
    rw [if_pos hrc]

theorem techLoop_rl_retry {exec : Nat → String → String → String → TechResult}
    {provider technique sysPrompt query : String} {nTech att counter retry_count : Nat}
    (hatt : 0 < att)
    (hex : exec counter technique sysPrompt query = TechResult.rateLimit)
    (hrc : ¬ 3 ≤ retry_count + 1) :
    techLoop exec provider technique sysPrompt query nTech att counter retry_count =
      ((techLoop exec provider technique sysPrompt query nTech (att - 1) (counter + 1)
          (retry_count + 1)).1,
       (techLoop exec provider technique sysPrompt query nTech (att - 1) (counter + 1)
          (retry_count + 1)).2.1,
       5 * 2 ^ retry_count ::
         (techLoop exec provider technique sysPrompt query nTech (att - 1) (counter + 1)
            (retry_count + 1)).2.2) := by
  rcases att with _ | a
  · exact absurd hatt (lt_irrefl 0)
  · rw [techLoop, hex]
    dsimp only
    rw [if_neg hrc]
    simp

/-- C2 counterexample: with the provider rate-limiting the first three
invocations and succeeding from the fourth on, the pipeline does not return
the success text: it raises the HTTP-429 error after the third rate-limit
error, without a fourth attempt. -/
theorem c2_counterexample :
    (apply_techniques (fun i _ _ _ => if i < 3 then .rateLimit else .ok "SUCCESS")
        "d" "openai" [("user", "Q")] ["bon"]).1 =
      PipeResult.httpErr 429 (rateLimitDetail 1) ∧
    (apply_techniques (fun i _ _ _ => if i < 3 then .rateLimit else .ok "SUCCESS")
        "d" "openai" [("user", "Q")] ["bon"]).1 ≠ PipeResult.text "SUCCESS" := by
  constructor
  · rfl
  · decide

/-- C2 (amended): with technique list `[bon]`, a provider that rate-limits
the first two invocations and succeeds on the third (final) attempt makes
the pipeline return the (sanitized) success text after backoff sleeps of 5
then 10 seconds (base 5, doubling, at most 3 attempts); a provider that
rate-limits three consecutive invocations makes the pipeline raise an
HTTP-429 error whose message mentions the number of techniques requested
(it does not name the technique). -/
theorem c2_retry (exec execF : Nat → String → String → String → TechResult)
    (direct provider s : String) (messages : List (String × String))
    (h0 : ∀ t sp q, exec 0 t sp q = TechResult.rateLimit)
    (h1 : ∀ t sp q, exec 1 t sp q = TechResult.rateLimit)
    (h2 : ∀ t sp q, exec 2 t sp q = TechResult.ok s)
    (hfence : hasFence s.data = false) (hlen : ¬ 2000 < s.length)
    (hF : ∀ i t sp q, i < 3 → execF i t sp q = TechResult.rateLimit) :
    apply_techniques exec direct provider messages ["bon"] = (PipeResult.text s, [5, 10]) ∧
    apply_techniques execF direct provider messages ["bon"] =
      (PipeResult.httpErr 429 (rateLimitDetail 1), [5, 10]) := by
  have hbon : "bon" ∈ registeredTechniques := by decide
  have hclean : cleanS s provider "bon" = s := cleanS_id s provider "bon" hfence hlen
  constructor
  · have l2 : techLoop exec provider "bon" (parse_messages messages).1
        (parse_messages messages).2 1 1 2 2 = (.ok s, 3, []) := by
      rw [techLoop_ok_of_pos (by norm_num) (h2 "bon" _ _), hclean]
    have l1 : techLoop exec provider "bon" (parse_messages messages).1
        (parse_messages messages).2 1 2 1 1 = (.ok s, 3, [10]) := by
      rw [techLoop_rl_retry (by norm_num) (h1 "bon" _ _) (by omega)]
      norm_num [l2]
    have l0 : techLoop exec provider "bon" (parse_messages messages).1
        (parse_messages messages).2 1 3 0 0 = (.ok s, 3, [5, 10]) := by
      rw [techLoop_rl_retry (by norm_num) (h0 "bon" _ _) (by omega)]
      norm_num [l1]
    show techChain exec provider (parse_messages messages).1 1 ["bon"]
        (parse_messages messages).2 0 [] = _
    simp only [techChain]
    rw [if_pos hbon, l0]
    simp [techChain]
  · have m2 : techLoop execF provider "bon" (parse_messages messages).1
        (parse_messages messages).2 1 1 2 2 =
        (.error (429, rateLimitDetail 1), 3, []) := by
      rw [techLoop_rl_stop (by norm_num) (hF 2 "bon" _ _ (by norm_num)) (by norm_num)]
    have m1 : techLoop execF provider "bon" (parse_messages messages).1
        (parse_messages messages).2 1 2 1 1 =
        (.error (429, rateLimitDetail 1), 3, [10]) := by
      rw [techLoop_rl_retry (by norm_num) (hF 1 "bon" _ _ (by norm_num)) (by omega)]
      norm_num [m2]
    have m0 : techLoop execF provider "bon" (parse_messages messages).1
        (parse_messages messages).2 1 3 0 0 =
        (.error (429, rateLimitDetail 1), 3, [5, 10]) := by
      rw [techLoop_rl_retry (by norm_num) (hF 0 "bon" _ _ (by norm_num)) (by omega)]
      norm_num [m1]
    show techChain execF provider (parse_messages messages).1 1 ["bon"]
        (parse_messages messages).2 0 [] = _
    simp only [techChain]
    rw [if_pos hbon, m0]
    rfl

/-- C2 witness: the amended behaviour at a concrete pair of oracles. -/
theorem c2_retry_witness :
    ((∀ t sp q, (fun i (_ : String) (_ : String) (_ : String) =>
          if i < 2 then TechResult.rateLimit else TechResult.ok "FINE") 0 t sp q =
        TechResult.rateLimit) ∧
      hasFence ("FINE" : String).data = false) ∧
    apply_techniques
        (fun i _ _ _ => if i < 2 then TechResult.rateLimit else TechResult.ok "FINE")
        "d" "google" [("user", "Q")] ["bon"] = (PipeResult.text "FINE", [5, 10]) ∧
    apply_techniques (fun _ _ _ _ => TechResult.rateLimit)
        "d" "google" [("user", "Q")] ["bon"] =
      (PipeResult.httpErr 429 (rateLimitDetail 1), [5, 10]) := by
  have h := c2_retry
    (fun i _ _ _ => if i < 2 then TechResult.rateLimit else TechResult.ok "FINE")
    (fun _ _ _ _ => TechResult.rateLimit)
    "d" "google" "FINE" [("user", "Q")]
    (fun _ _ _ => rfl) (fun _ _ _ => rfl) (fun _ _ _ => rfl)
    (by decide) (by decide) (fun _ _ _ _ _ => rfl)
  exact ⟨⟨fun _ _ _ => rfl, by decide⟩, h.1, h.2⟩

/-- C5: with mocked, error-free technique functions, the pipeline's result
is the left fold of sanitize-after-technique over the technique list, in
caller order, started from the last user message's content: the nested
sanitized composition the claim describes. -/
theorem c5_chaining (exec : Nat → String → String → String → TechResult)
    (f : String → String → String)
    (hexec : ∀ i t sp q, exec i t sp q = TechResult.ok (f t q))
    (direct provider : String) (messages : List (String × String))
    (techniques : List String) (hne : techniques ≠ [])
    (hreg : ∀ t ∈ techniques, t ∈ registeredTechniques) :
    (apply_techniques exec direct provider messages techniques).1 =
      PipeResult.text (techniques.foldl
        (fun q t => cleanS (f t q) provider t) (parse_messages messages).2) := by
  have main : ∀ (ts : List String) (q : String) (c : Nat) (sl : List Nat),
      (∀ t ∈ ts, t ∈ registeredTechniques) →
      techChain exec provider (parse_messages messages).1 techniques.length ts q c sl =
        (.text (ts.foldl (fun acc t => cleanS (f t acc) provider t) q), sl) := by
    intro ts
    induction ts with
    | nil => intro q c sl _; rfl
    | cons t rest ih =>
      intro q c sl hr
      simp only [techChain]
      rw [if_pos (hr t (List.mem_cons_self t rest))]
      rw [techLoop_ok_of_pos (by norm_num) (hexec c t (parse_messages messages).1 q)]
      dsimp only
      rw [ih (cleanS (f t q) provider t) (c + 1) (sl ++ [])
        (fun u hu => hr u (List.mem_cons_of_mem t hu))]
      simp
  rcases techniques with _ | ⟨t, rest⟩
  · exact absurd rfl hne
  · show (techChain exec provider (parse_messages messages).1 (t :: rest).length (t :: rest)
        (parse_messages messages).2 0 []).1 = _
    rw [main (t :: rest) _ 0 [] hreg]

/-- C5 witness: two chained techniques with a concrete mocked output
function. -/
theorem c5_chaining_witness :
    ((∀ i t sp q, (fun (_ : Nat) (t : String) (_ : String) (q : String) =>
          TechResult.ok (q ++ "|" ++ t)) i t sp q =
        TechResult.ok (q ++ "|" ++ t)) ∧
      (["bon", "moa"] : List String) ≠ [] ∧
      (∀ t ∈ (["bon", "moa"] : List String), t ∈ registeredTechniques)) ∧
    (apply_techniques (fun _ t _ q => TechResult.ok (q ++ "|" ++ t)) "d" "google"
        [("user", "Q")] ["bon", "moa"]).1 =
      PipeResult.text ((["bon", "moa"] : List String).foldl
        (fun q t => cleanS ((fun (t : String) (q : String) => q ++ "|" ++ t) t q) "google" t)
        (parse_messages [("user", "Q")]).2) :=
  ⟨⟨fun _ _ _ _ => rfl, by decide, by decide⟩,
   c5_chaining (fun _ t _ q => TechResult.ok (q ++ "|" ++ t))
     (fun t q => q ++ "|" ++ t) (fun _ _ _ _ => rfl) "d" "google" [("user", "Q")]
     ["bon", "moa"] (by decide) (by decide)⟩

/-- C8 counterexample: with provider `openai` (ceiling 3), clock 100 and
recorded calls at 0, 50, 60, 70, three calls sit inside the window, but the
code computes the wait from `request_times[0] = 0`, which lies outside the
window, clamps the negative value and waits 0 seconds — not the
`60 - (100 - 50) + 1 = 11` seconds the claim's formula demands. -/
theorem c8_counterexample :
    should_throttle "openai" 100 [0, 50, 60, 70] = (true, 0) ∧
    ¬ ((0 : ℚ) = 60 - (100 - 50) + 1) := by
  constructor
  · unfold should_throttle
    rw [if_pos (by
      rw [show rateLimits "openai" = 3 from rfl]
      norm_num [get_requests_in_last_minute, List.filter_cons, decide_eq_true_eq])]
    simp only [List.headI_cons]
    rw [Prod.mk.injEq]
    exact ⟨rfl, by rw [max_eq_right (by norm_num)]⟩
  · norm_num

/-- C8 (amended): the throttling wait is computed from the oldest entry of
the whole recorded history (`request_times[0]`), clamped at 0.  When that
oldest recorded call still lies inside the trailing 60-second window — and
the history is chronologically sorted, as appends keep it — it coincides
with the oldest call counted in the window, and the wait equals
60 minus its age plus the 1-second buffer; `wait_if_needed` sleeps exactly
that first. -/
theorem c8_throttle_wait (provider : String) (now : ℚ) (times : List ℚ)
    (hsorted : times.Sorted (· ≤ ·)) (hne : times ≠ [])
    (hhead : now - times.headI < 60)
    (hcount : rateLimits provider ≤ get_requests_in_last_minute now times) :
    should_throttle provider now times = (true, 60 - (now - times.headI) + 1) ∧
    (wait_if_needed provider now times).1.headI = 60 - (now - times.headI) + 1 ∧
    times.headI ∈ times.filter (fun t => now - 60 < t) ∧
    ∀ t ∈ times, times.headI ≤ t := by
  have hth : should_throttle provider now times = (true, 60 - (now - times.headI) + 1) := by
    unfold should_throttle
    rw [if_pos hcount, max_eq_left (by linarith)]
  refine ⟨hth, ?_, ?_, ?_⟩
  · simp only [wait_if_needed, hth]
    split
    · split <;> simp
    · simp_all
  · rcases times with _ | ⟨t0, ts⟩
    · exact absurd rfl hne
    · simp only [List.headI_cons] at hhead ⊢
      rw [List.mem_filter]
      exact ⟨List.mem_cons_self t0 ts, by simp only [decide_eq_true_eq]; linarith⟩
  · rcases times with _ | ⟨t0, ts⟩
    · exact absurd rfl hne
    · intro t ht
      simp only [List.headI_cons]
      rcases List.mem_cons.mp ht with h | h
      · exact le_of_eq h.symm
      · exact (List.sorted_cons.mp hsorted).1 t h

/-- C8 witness: the amended statement at provider `openai`, clock 100 and
in-window history 50, 60, 70 (computed wait 11 seconds). -/
theorem c8_throttle_wait_witness :
    (([50, 60, 70] : List ℚ).Sorted (· ≤ ·) ∧ ([50, 60, 70] : List ℚ) ≠ [] ∧
      (100 : ℚ) - ([50, 60, 70] : List ℚ).headI < 60 ∧
      rateLimits "openai" ≤ get_requests_in_last_minute 100 [50, 60, 70]) ∧
    (should_throttle "openai" 100 [50, 60, 70] =
        (true, 60 - (100 - ([50, 60, 70] : List ℚ).headI) + 1) ∧
      (wait_if_needed "openai" 100 [50, 60, 70]).1.headI =
        60 - (100 - ([50, 60, 70] : List ℚ).headI) + 1 ∧
      ([50, 60, 70] : List ℚ).headI ∈
        ([50, 60, 70] : List ℚ).filter (fun t => (100 : ℚ) - 60 < t) ∧
      ∀ t ∈ ([50, 60, 70] : List ℚ), ([50, 60, 70] : List ℚ).headI ≤ t) :=
  ⟨⟨by norm_num [List.sorted_cons], by simp, by norm_num,
    by
      rw [show rateLimits "openai" = 3 from rfl]
      norm_num [get_requests_in_last_minute, List.filter_cons, decide_eq_true_eq]⟩,
   c8_throttle_wait "openai" 100 [50, 60, 70] (by norm_num [List.sorted_cons]) (by simp)
     (by norm_num)
     (by
       rw [show rateLimits "openai" = 3 from rfl]
       norm_num [get_requests_in_last_minute, List.filter_cons, decide_eq_true_eq])⟩

/-! ### The `current_step_index` invariant (C1) -/

theorem waitInv_set_current (wf : WorkflowSt) (st : Step) (h : WaitInv wf) :
    WaitInv (setStep wf wf.current_step_index st) := by
  intro j hj hw
  simp only [setStep_steps, List.length_set] at hj
  simp only [setStep_index]
  by_cases hji : j = wf.current_step_index
  · exact hji
  · simp only [setStep_steps] at hw
    rw [getD_set_ne wf.steps _ j st (fun e => hji e.symm)] at hw
    exact h j hj hw

theorem waitInv_update (wf : WorkflowSt) (s : WorkflowStatus) (e : Option String)
    (h : WaitInv wf) : WaitInv (update_status wf s e) := by
  intro j hj hw
  simp only [update_status_steps] at hj hw
  simp only [update_status_index]
  exact h j hj hw

theorem claimInv_update_nonCompleted (wf : WorkflowSt) (s : WorkflowStatus)
    (e : Option String) (hlt : wf.current_step_index < wf.steps.length)
    (hs : s ≠ WorkflowStatus.COMPLETED) : ClaimInv (update_status wf s e) := by
  constructor
  · simp only [update_status_index, update_status_steps]
    omega
  · simp only [update_status_index, update_status_steps, update_status_status]
    constructor
    · intro heq
      omega
    · intro hc
      exact absurd hc hs

theorem claimInv_advance_set (wf : WorkflowSt) (st : Step) (hpre : ClaimInv wf)
    (hlt : wf.current_step_index < wf.steps.length) :
    ClaimInv (advance_step (setStep wf wf.current_step_index st)) := by
  constructor
  · rw [advance_step_index, advance_step_steps]
    simp only [setStep_index, setStep_steps, List.length_set]
    omega
  · rw [advance_step_index, advance_step_steps, advance_step_status]
    simp only [setStep_index, setStep_steps, setStep_status, List.length_set]
    by_cases he : wf.current_step_index + 1 = wf.steps.length
    · rw [if_pos (by omega)]
      simp [he]
    · rw [if_neg (by omega)]
      constructor
      · intro heq
        omega
      · intro hc
        have := hpre.2.mpr hc
        omega

theorem waitInv_advance_set (wf : WorkflowSt) (st : Step) (h : WaitInv wf)
    (hst : st.status ≠ StepStatus.WAITING_APPROVAL) :
    WaitInv (advance_step (setStep wf wf.current_step_index st)) := by
  intro j hj hw
  rw [advance_step_steps] at hj hw
  simp only [setStep_steps, List.length_set] at hj
  by_cases hji : j = wf.current_step_index
  · subst hji
    simp only [setStep_steps] at hw
    rw [getD_set_self wf.steps _ st hj] at hw
    exact absurd hw hst
  · simp only [setStep_steps] at hw
    rw [getD_set_ne wf.steps _ j st (fun e => hji e.symm)] at hw
    exact absurd (h j hj hw) hji

theorem fullInv_postLoop (wf : WorkflowSt) (r : Option String)
    (heq : wf.current_step_index = wf.steps.length) (h : WaitInv wf) :
    FullInv { update_status wf WorkflowStatus.COMPLETED none with result := r } := by
  refine ⟨⟨?_, ?_⟩, ?_⟩
  · show wf.current_step_index ≤ wf.steps.length
    omega
  · show wf.current_step_index = wf.steps.length ↔ WorkflowStatus.COMPLETED = _
    simp [heq]
  · intro j hj hw
    exact h j hj hw

theorem executeLoop_fullInv (oc : Nat → StepOutcome) :
    ∀ (m k : Nat) (wf : WorkflowSt), wf.steps.length - wf.current_step_index ≤ m →
      FullInv wf → FullInv (executeLoop oc k wf).2.1 := by
  intro m
  induction m with
  | zero =>
    intro k wf hm hinv
    rw [executeLoop.eq_def, dif_neg (by omega)]
    exact fullInv_postLoop wf _ (by have := hinv.1.1; omega) hinv.2
  | succ m ih =>
    intro k wf hm hinv
    rw [executeLoop.eq_def]
    by_cases hlt : wf.current_step_index < wf.steps.length
    · rw [dif_pos hlt]
      dsimp only
      by_cases hpause :
          (wf.steps.getD wf.current_step_index default).requires_approval = true ∧
          (wf.steps.getD wf.current_step_index default).status = StepStatus.WAITING_APPROVAL
      · rw [if_pos hpause]
        exact ⟨claimInv_update_nonCompleted wf _ none hlt (by decide),
          waitInv_update wf _ none hinv.2⟩
      · rw [if_neg hpause]
        cases hoc : oc k with
        | errResult msg =>
          exact ⟨claimInv_update_nonCompleted _ _ _
              (by simp only [setStep_index, setStep_steps, List.length_set]; exact hlt)
              (by decide),
            waitInv_update _ _ _ (waitInv_set_current wf _ hinv.2)⟩
        | raised msg =>
          exact ⟨claimInv_update_nonCompleted _ _ _
              (by simp only [setStep_index, setStep_steps, List.length_set]; exact hlt)
              (by decide),
            waitInv_update _ _ _ (waitInv_set_current wf _ hinv.2)⟩
        | ok out =>
          dsimp only
          by_cases hra : (wf.steps.getD wf.current_step_index default).requires_approval = true
          · rw [if_pos hra]
            exact ⟨claimInv_update_nonCompleted _ _ _
                (by simp only [setStep_index, setStep_steps, List.length_set]; exact hlt)
                (by decide),
              waitInv_update _ _ _ (waitInv_set_current wf _ hinv.2)⟩
          · rw [if_neg hra]
            apply ih (k + 1)
            · rw [advance_step_steps, advance_step_index]
              simp only [setStep_index, setStep_steps, List.length_set]
              omega
            · refine ⟨claimInv_advance_set wf _ hinv.1 hlt,
                waitInv_advance_set wf _ hinv.2 ?_⟩
              exact fun h => nomatch h
    · rw [dif_neg hlt]
      exact fullInv_postLoop wf _ (by have := hinv.1.1; omega) hinv.2

theorem fullInv_execute_workflow (oc : Nat → StepOutcome) (store : Option WorkflowSt)
    (h : ∀ wf, store = some wf → FullInv wf) :
    ∀ wf', (execute_workflow oc store).2.1 = some wf' → FullInv wf' := by
  intro wf' hw
  cases store with
  | none => simp [execute_workflow] at hw
  | some wf =>
    have hinv := h wf rfl
    simp only [execute_workflow] at hw
    by_cases hp : wf.status = WorkflowStatus.PENDING
    · rw [if_pos hp] at hw
      simp only [Option.some.injEq] at hw
      rw [← hw]
      apply executeLoop_fullInv oc _ 0 _ (le_refl _)
      have hlt : wf.current_step_index < wf.steps.length := by
        have h1 := hinv.1.1
        have h2 : wf.current_step_index ≠ wf.steps.length := fun he =>
          absurd (hp ▸ hinv.1.2.mp he) (by decide)
        omega
      exact ⟨claimInv_update_nonCompleted wf _ none hlt (by decide),
        waitInv_update wf _ none hinv.2⟩
    · rw [if_neg hp] at hw
      simp only [Option.some.injEq] at hw
      rw [← hw]
      exact executeLoop_fullInv oc _ 0 _ (le_refl _) hinv

theorem pyIndex_lt {len : Nat} {i : Int} {j : Nat} (h : pyIndex len i = some j)
    (hge : ¬ (len : Int) ≤ i) : j < len := by
  unfold pyIndex at h
  by_cases h0 : 0 ≤ i
  · rw [if_pos h0] at h
    simp only [Option.some.injEq] at h
    omega
  · rw [if_neg h0] at h
    by_cases h1 : 0 ≤ (len : Int) + i
    · rw [if_pos h1] at h
      simp only [Option.some.injEq] at h
      omega
    · rw [if_neg h1] at h
      exact absurd h (by simp)

theorem fullInv_approve_step (oc : Nat → StepOutcome) (store : Option WorkflowSt)
    (i : Int) (a : Bool) (fb : Option String)
    (h : ∀ wf, store = some wf → FullInv wf) :
    ∀ wf', (approve_step oc store i a fb).2.1 = some wf' → FullInv wf' := by
  intro wf' hw
  cases store with
  | none => simp [approve_step] at hw
  | some wf =>
    have hinv := h wf rfl
    simp only [approve_step] at hw
    by_cases hge : (wf.steps.length : Int) ≤ i
    · rw [if_pos hge] at hw
      simp only [Option.some.injEq] at hw
      rw [← hw]
      exact hinv
    · rw [if_neg hge] at hw
      cases hpy : pyIndex wf.steps.length i with
      | none =>
        rw [hpy] at hw
        simp only [Option.some.injEq] at hw
        rw [← hw]
        exact hinv
      | some j =>
        rw [hpy] at hw
        dsimp only at hw
        have hjlt : j < wf.steps.length := pyIndex_lt hpy hge
        by_cases hst : (wf.steps.getD j default).status ≠ StepStatus.WAITING_APPROVAL
        · rw [if_pos hst] at hw
          simp only [Option.some.injEq] at hw
          rw [← hw]
          exact hinv
        · rw [if_neg hst] at hw
          push_neg at hst
          have hjidx : j = wf.current_step_index := hinv.2 j hjlt hst
          cases a with
          | true =>
            rw [if_pos rfl] at hw
            refine fullInv_execute_workflow oc _ ?_ wf' hw
            intro w2 hw2
            simp only [Option.some.injEq] at hw2
            rw [← hw2]
            subst hjidx
            refine ⟨claimInv_advance_set wf _ hinv.1 hjlt,
              waitInv_advance_set wf _ hinv.2 ?_⟩
            exact fun h => nomatch h
          | false =>
            rw [if_neg Bool.false_ne_true] at hw
            simp only [Option.some.injEq] at hw
            rw [← hw]
            subst hjidx
            exact ⟨claimInv_update_nonCompleted _ _ _
                (by simp only [setStep_index, setStep_steps, List.length_set]; exact hjlt)
                (by decide),
              waitInv_update _ _ _ (waitInv_set_current wf _ hinv.2)⟩

theorem fullInv_applyOp (store : Option WorkflowSt) (op : Op) (hop : op.isOrch)
    (h : ∀ wf, store = some wf → FullInv wf) :
    ∀ wf', applyOp store op = some wf' → FullInv wf' := by
  cases op with
  | execW oc => exact fullInv_execute_workflow oc store h
  | approve oc i a fb => exact fullInv_approve_step oc store i a fb h
  | advance => exact absurd hop (by simp [Op.isOrch])

theorem fullInv_applyOps (ops : List Op) :
    ∀ (store : Option WorkflowSt), (∀ op ∈ ops, op.isOrch) →
      (∀ wf, store = some wf → FullInv wf) →
      ∀ wf', applyOps ops store = some wf' → FullInv wf' := by
  induction ops with
  | nil =>
    intro store _ h wf' hw
    simp only [applyOps, List.foldl_nil] at hw
    exact h wf' hw
  | cons op rest ih =>
    intro store hall h wf' hw
    simp only [applyOps, List.foldl_cons] at hw
    exact ih (applyOp store op)
      (fun o ho => hall o (List.mem_cons_of_mem op ho))
      (fullInv_applyOp store op (hall op (List.mem_cons_self op rest)) h)
      wf' hw

theorem create_workflow_step_status (specs : List (String × Bool)) :
    ∀ j, j < specs.length →
      (((create_workflow specs).steps.getD j default)).status = StepStatus.PENDING := by
  induction specs with
  | nil => intro j hj; simp at hj
  | cons a t ih =>
    intro j hj
    cases j with
    | zero => rfl
    | succ n =>
      have := ih n (by simpa using hj)
      simpa [create_workflow, List.getD] using this

theorem create_workflow_fullInv (specs : List (String × Bool)) (h : specs ≠ []) :
    FullInv (create_workflow specs) := by
  refine ⟨⟨Nat.zero_le _, ?_, ?_⟩, ?_⟩
  · intro h0
    have hlen : specs.length = 0 := by simpa [create_workflow] using h0.symm
    exact absurd (List.length_eq_zero.mp hlen) h
  · intro hc
    exact nomatch hc
  · intro j hj hw
    have hjs : j < specs.length := by simpa [create_workflow] using hj
    rw [create_workflow_step_status specs j hjs] at hw
    exact nomatch hw

/-- C1 (amended): for every workflow created with at least one step, and
every sequence of the orchestrator's own operations (`execute_workflow` and
`approve_step`; the repository's `advance_step` is invoked only internally
by these), `current_step_index` stays in `[0, len(steps)]` and equals the
step count exactly when the workflow status is COMPLETED. -/
theorem c1_invariant (specs : List (String × Bool)) (hs : specs ≠ []) (ops : List Op)
    (horch : ∀ op ∈ ops, op.isOrch) (wf : WorkflowSt)
    (hw : applyOps ops (some (create_workflow specs)) = some wf) :
    wf.current_step_index ≤ wf.steps.length ∧
      (wf.current_step_index = wf.steps.length ↔ wf.status = WorkflowStatus.COMPLETED) :=
  (fullInv_applyOps ops (some (create_workflow specs)) horch
    (fun w hws => by
      simp only [Option.some.injEq] at hws
      rw [← hws]
      exact create_workflow_fullInv specs hs)
    wf hw).1

/-- C1 witness: a one-step workflow after an `approve_step` call that hits
the not-waiting structured error. -/
theorem c1_invariant_witness :
    (([("plan", true)] : List (String × Bool)) ≠ [] ∧
      (∀ op ∈ [Op.approve ocTrivial 0 false none], op.isOrch) ∧
      applyOps [Op.approve ocTrivial 0 false none]
          (some (create_workflow [("plan", true)])) =
        some (create_workflow [("plan", true)])) ∧
    ((create_workflow [("plan", true)]).current_step_index ≤
        (create_workflow [("plan", true)]).steps.length ∧
      ((create_workflow [("plan", true)]).current_step_index =
          (create_workflow [("plan", true)]).steps.length ↔
        (create_workflow [("plan", true)]).status = WorkflowStatus.COMPLETED)) :=
  ⟨⟨by decide,
    by
      intro op hop
      rw [List.mem_singleton] at hop
      subst hop
      exact True.intro,
    rfl⟩,
   c1_invariant [("plan", true)] (by decide) [Op.approve ocTrivial 0 false none]
     (by
       intro op hop
       rw [List.mem_singleton] at hop
       subst hop
       exact True.intro)
     (create_workflow [("plan", true)]) rfl⟩

end Merlin
